import Mathlib

/-!
Verification of the 1focus window-focus tracker.

The development embeds the focus-event store (`focus-tracker.ts`), the
focus coordinator debounce (`index.ts`), the macOS window matcher and
focuser (`macos.ts`), and the last-window marker writer (`last-window.ts`)
as executable Lean definitions, and proves the specified properties about
them.  JavaScript strings are modelled as Lean `String`s, with the string
primitives the source uses (`split`, `includes`, `trim`, `endsWith`,
per-character `replace`) defined over the underlying character lists so
that every definition evaluates by kernel reduction.
-/

/-- The em-dash character U+2014 used by the window-title separator. -/
def emDashChar : Char := Char.ofNat 0x2014

/-- The single-quote character, used by the SQL escaping logic. -/
def quoteChar : Char := Char.ofNat 39

/-- Character-list model of JavaScript `String.prototype.trim`:
drop whitespace from both ends. -/
def trimChars (cs : List Char) : List Char :=
  ((cs.dropWhile Char.isWhitespace).reverse.dropWhile Char.isWhitespace).reverse

/-- String wrapper for `trimChars`; models `value.trim()`. -/
def jsTrim (s : String) : String :=
  String.mk (trimChars s.data)

/-- Model of JavaScript `title.endsWith(suffix)` (also of SQL `LIKE '%x'`
and AppleScript `ends with`): suffix test on the character lists. -/
def jsEndsWith (s sfx : String) : Bool :=
  sfx.data.isSuffixOf s.data

/-- Model of JavaScript `s.includes(pat)`: does the character sequence
`pat` occur contiguously in `cs`? -/
def containsSeq (pat : List Char) : List Char → Bool
  | [] => pat.isEmpty
  | c :: cs => pat.isPrefixOf (c :: cs) || containsSeq pat cs

/-- Specialisation of `containsSeq` to a three-character pattern, the shape
of both window-title separators (" — " and " - ").  Scans left to right,
exactly as JavaScript `includes` does. -/
def containsSeq3 (s0 s1 s2 : Char) : List Char → Bool
  | c0 :: c1 :: c2 :: rest =>
    (c0 = s0 && c1 = s1 && c2 = s2) || containsSeq3 s0 s1 s2 (c1 :: c2 :: rest)
  | _ => false

/-- Model of JavaScript `s.split(sep)` for a three-character separator:
leftmost, non-overlapping matches, as the JS engine performs them. -/
def splitOn3 (s0 s1 s2 : Char) : List Char → List (List Char)
  | c0 :: c1 :: c2 :: rest =>
    if c0 = s0 && c1 = s1 && c2 = s2 then
      [] :: splitOn3 s0 s1 s2 rest
    else
      match splitOn3 s0 s1 s2 (c1 :: c2 :: rest) with
      | [] => [[c0]]
      | seg :: segs => (c0 :: seg) :: segs
  | cs => [cs]

/-- Embedding of `extractWorkspaceName` (focus-tracker.ts): if the title
contains " — " (em-dash surrounded by spaces), take the part after the
last occurrence produced by `split`; if that part is the empty string the
JS truthiness test yields `null`, otherwise the part is trimmed.  Failing
the em-dash, the same with the plain " - " separator; else `null`. -/
def extractWorkspaceName (windowTitle : String) : Option String :=
  let t := windowTitle.data
  if containsSeq3 ' ' emDashChar ' ' t then
    let segment := (splitOn3 ' ' emDashChar ' ' t).getLastD []
    if segment.isEmpty then none else some (String.mk (trimChars segment))
  else if containsSeq3 ' ' '-' ' ' t then
    let segment := (splitOn3 ' ' '-' ' ' t).getLastD []
    if segment.isEmpty then none else some (String.mk (trimChars segment))
  else
    none

example : extractWorkspaceName "Foo — bar.code-workspace" = some "bar.code-workspace" := by decide
example : extractWorkspaceName "Foo - baz" = some "baz" := by decide
example : extractWorkspaceName "FooBar" = none := by decide
example : extractWorkspaceName "Foo — " = none := by decide
example : jsEndsWith "Proj." "." = true := by decide
example : jsTrim "  a b  " = "a b" := by decide

/-! ## The event store (focus-tracker.ts) -/

/-- Row bound of the `window_focus` table (`MAX_ROWS` in focus-tracker.ts). -/
def MAX_ROWS : Nat := 500

/-- Argument record of `recordFocusEvent`. -/
structure FocusEntry where
  sessionId : String
  windowTitle : String
  workspacePath : Option String
  activeFile : Option String
  appId : Option String
  deriving DecidableEq

/-- One row of the `window_focus` table.  `id` is the autoincrement
primary key; nullable TEXT columns are `Option String`; `focused_at` is
the millisecond timestamp. -/
structure FocusRow where
  id : Nat
  sessionId : String
  windowTitle : Option String
  workspaceName : Option String
  workspacePath : Option String
  activeFile : Option String
  focusedAt : Nat
  appId : Option String
  deriving DecidableEq

/-- State of the SQLite database: the table contents in insertion order,
and the next autoincrement id. -/
structure Store where
  rows : List FocusRow
  nextId : Nat
  deriving DecidableEq

/-- A freshly created database: empty table, autoincrement starts at 1. -/
def emptyStore : Store := ⟨[], 1⟩

/-- Does row `a` come strictly before row `b` under
`ORDER BY focused_at DESC`?  SQLite leaves the order of rows with equal
`focused_at` unspecified; the model resolves such ties by the larger
rowid, a choice that is irrelevant whenever timestamps are distinct. -/
def keyGtB (a b : FocusRow) : Bool :=
  decide (b.focusedAt < a.focusedAt ∨ (a.focusedAt = b.focusedAt ∧ b.id < a.id))

/-- The prune step of `recordFocusEvent`:
`DELETE FROM window_focus WHERE id NOT IN (SELECT id FROM window_focus
ORDER BY focused_at DESC LIMIT MAX_ROWS)`.  A row survives exactly when
fewer than `MAX_ROWS` rows rank strictly above it. -/
def pruneRows (rows : List FocusRow) : List FocusRow :=
  rows.filter fun r => decide ((rows.filter fun s => keyGtB s r).length < MAX_ROWS)

/-- The row built by the INSERT statement of `recordFocusEvent`. -/
def mkRow (id : Nat) (e : FocusEntry) (ts : Nat) : FocusRow :=
  ⟨id, e.sessionId, some e.windowTitle, extractWorkspaceName e.windowTitle,
   e.workspacePath, e.activeFile, ts, e.appId⟩

/-- Embedding of `recordFocusEvent`: a no-op when the title trims to
empty, otherwise one INSERT (with `focused_at` assigned at write time)
followed by the prune, in the same script. -/
def recordFocusEvent (e : FocusEntry) (ts : Nat) (st : Store) : Store :=
  if jsTrim e.windowTitle = "" then st
  else ⟨pruneRows (st.rows ++ [mkRow st.nextId e ts]), st.nextId + 1⟩

/-- A sequence of `recordFocusEvent` calls, each with its timestamp. -/
def runEvents (evs : List (FocusEntry × Nat)) (st : Store) : Store :=
  evs.foldl (fun s p => recordFocusEvent p.1 p.2 s) st

/-- The rows the calls in `evs` insert (before any pruning), with
autoincrement ids starting at `n`.  Matches `runEvents` whenever every
title is non-empty after trimming. -/
def insertedRows : List (FocusEntry × Nat) → Nat → List FocusRow
  | [], _ => []
  | (e, ts) :: rest, n => mkRow n e ts :: insertedRows rest (n + 1)

/-- The WHERE clause of `getLastNonDotWindow`:
`session_id != ?` AND (`workspace_name IS NULL OR workspace_name = '' OR
workspace_name NOT LIKE '%.'`) AND, when the caller passed a truthy
(non-null, non-empty) appId, `app_id = ?`. -/
def rowQualifiesB (excludeSessionId : String) (appId : Option String) (r : FocusRow) : Bool :=
  (r.sessionId != excludeSessionId)
  && (match r.workspaceName with
      | none => true
      | some w => (w == "") || !(jsEndsWith w "."))
  && (match appId with
      | none => true
      | some a => (a == "") || (r.appId == some a))

/-- `ORDER BY focused_at DESC LIMIT 1`: the row ranking highest under
`keyGtB`, or `none` on an empty candidate set. -/
def maxRow : List FocusRow → Option FocusRow
  | [] => none
  | r :: rest => some (rest.foldl (fun m s => if keyGtB s m then s else m) r)

/-- Embedding of `getLastNonDotWindow`: select the most recent qualifying
row; an empty reply parses to `null`, and a row whose `windowTitle` is
null or empty is also turned into `null` by the `!record.windowTitle`
guard. -/
def getLastNonDotWindow (excludeSessionId : String) (appId : Option String)
    (st : Store) : Option FocusRow :=
  match maxRow (st.rows.filter (rowQualifiesB excludeSessionId appId)) with
  | none => none
  | some r =>
    match r.windowTitle with
    | none => none
    | some t => if t = "" then none else some r

example :
    recordFocusEvent ⟨"a", "title1", none, none, some "x"⟩ 100 emptyStore =
      ⟨[⟨1, "a", some "title1", none, none, none, 100, some "x"⟩], 2⟩ := by decide

example :
    getLastNonDotWindow "b" (some "")
      ⟨[⟨1, "a", some "title1", none, none, none, 100, some "x"⟩], 2⟩ =
      some ⟨1, "a", some "title1", none, none, none, 100, some "x"⟩ := by decide

example :
    getLastNonDotWindow "b" none
      ⟨[⟨1, "a", some "t", some "Proj.", none, none, 100, none⟩], 2⟩ = none := by decide

/-! ## Lemmas about the prune step -/

lemma keyGtB_irrefl (r : FocusRow) : keyGtB r r = false := by
  simp [keyGtB]

lemma keyGtB_of_lt {a b : FocusRow} (h : a.focusedAt < b.focusedAt) : keyGtB b a = true := by
  simp only [keyGtB, decide_eq_true_eq]
  exact Or.inl h

lemma keyGtB_false_of_lt {a b : FocusRow} (h : a.focusedAt < b.focusedAt) : keyGtB a b = false := by
  simp only [keyGtB, decide_eq_false_iff_not]
  omega

lemma length_filter_lt {α : Type} (p : α → Bool) (l : List α) (x : α)
    (hx : x ∈ l) (hpx : p x = false) : (l.filter p).length < l.length := by
  induction l with
  | nil => cases hx
  | cons a l ih =>
    rw [List.filter_cons]
    rcases List.mem_cons.mp hx with rfl | hmem
    · rw [if_neg (by simp [hpx])]
      simpa using Nat.lt_succ_of_le (List.length_filter_le p l)
    · split
      · simpa using Nat.succ_lt_succ (ih hmem)
      · exact Nat.lt_succ_of_lt (ih hmem)

/-- With at most `MAX_ROWS` rows present, the prune deletes nothing. -/
lemma pruneRows_of_length_le {l : List FocusRow} (h : l.length ≤ MAX_ROWS) :
    pruneRows l = l := by
  apply List.filter_eq_self.mpr
  intro r hr
  have hlt := length_filter_lt (fun s => keyGtB s r) l r hr (keyGtB_irrefl r)
  simp only [decide_eq_true_eq]
  omega

/-- On a list that is strictly increasing in `focusedAt`, the prune keeps
exactly the final `MAX_ROWS` rows. -/
lemma pruneRows_sorted : ∀ {l : List FocusRow},
    l.Pairwise (fun x y => x.focusedAt < y.focusedAt) →
    pruneRows l = l.drop (l.length - MAX_ROWS) := by
  intro l h
  induction l with
  | nil => rfl
  | cons a l ih =>
    obtain ⟨ha, hl⟩ := List.pairwise_cons.mp h
    have hinner_a : ((a :: l).filter fun s => keyGtB s a) = l := by
      rw [List.filter_cons, if_neg (by simp [keyGtB_irrefl])]
      exact List.filter_eq_self.mpr fun s hs => keyGtB_of_lt (ha s hs)
    have hinner_tail : ∀ r ∈ l,
        ((a :: l).filter fun s => keyGtB s r) = l.filter fun s => keyGtB s r := by
      intro r hr
      rw [List.filter_cons, if_neg (by simp [keyGtB_false_of_lt (ha r hr)])]
    have hQa : (l.filter fun s => keyGtB s a) = l :=
      List.filter_eq_self.mpr fun s hs => keyGtB_of_lt (ha s hs)
    have hcongr :
        List.filter (fun r => decide ((List.filter (fun s => keyGtB s r) (a :: l)).length < MAX_ROWS)) (a :: l)
          = List.filter (fun r => decide ((List.filter (fun s => keyGtB s r) l).length < MAX_ROWS)) (a :: l) := by
      apply List.filter_congr
      intro x hx
      rcases List.mem_cons.mp hx with rfl | hmem
      · rw [hinner_a, hQa]
      · rw [hinner_tail x hmem]
    have hstep : pruneRows (a :: l) =
        if l.length < MAX_ROWS then a :: pruneRows l else pruneRows l := by
      unfold pruneRows
      rw [hcongr, List.filter_cons]
      simp only [hQa, decide_eq_true_eq]
    rw [hstep, ih hl]
    by_cases hlen : l.length < MAX_ROWS
    · rw [if_pos hlen]
      have h1 : l.length - MAX_ROWS = 0 := by omega
      have h2 : (a :: l).length - MAX_ROWS = 0 := by simp only [List.length_cons]; omega
      rw [h1, h2, List.drop_zero, List.drop_zero]
    · rw [if_neg hlen]
      have h3 : (a :: l).length - MAX_ROWS = (l.length - MAX_ROWS) + 1 := by
        simp only [List.length_cons]; omega
      rw [h3, List.drop_succ_cons]

lemma drop_succ_append {α : Type} (A B : List α) (k : Nat) (h : 1 ≤ A.length) :
    (A ++ B).drop (k + 1) = (A.drop 1 ++ B).drop k := by
  have h1 : (A ++ B).drop 1 = A.drop 1 ++ B := by
    rw [List.drop_append_eq_append_drop]
    have h0 : 1 - A.length = 0 := by omega
    rw [h0, List.drop_zero]
  calc (A ++ B).drop (k + 1) = ((A ++ B).drop 1).drop k := by
        rw [List.drop_drop, Nat.add_comm]
    _ = (A.drop 1 ++ B).drop k := by rw [h1]

lemma insertedRows_length : ∀ (evs : List (FocusEntry × Nat)) (n : Nat),
    (insertedRows evs n).length = evs.length := by
  intro evs
  induction evs with
  | nil => intro n; rfl
  | cons p rest ih =>
    intro n
    cases p with | mk e ts => simp [insertedRows, ih]

lemma insertedRows_focusedAt : ∀ (evs : List (FocusEntry × Nat)) (n : Nat) (r : FocusRow),
    r ∈ insertedRows evs n → ∃ p ∈ evs, r.focusedAt = p.2 := by
  intro evs
  induction evs with
  | nil => intro n r h; cases h
  | cons p rest ih =>
    intro n r h
    cases p with | mk e ts =>
    rcases List.mem_cons.mp h with rfl | hmem
    · exact ⟨(e, ts), List.mem_cons_self _ _, rfl⟩
    · obtain ⟨q, hq, hfq⟩ := ih (n + 1) r hmem
      exact ⟨q, List.mem_cons_of_mem _ hq, hfq⟩

lemma insertedRows_pairwise : ∀ (evs : List (FocusEntry × Nat)) (n : Nat),
    evs.Pairwise (fun a b => a.2 < b.2) →
    (insertedRows evs n).Pairwise (fun a b => a.focusedAt < b.focusedAt) := by
  intro evs
  induction evs with
  | nil => intro n _; exact List.Pairwise.nil
  | cons p rest ih =>
    intro n h
    obtain ⟨hp, hrest⟩ := List.pairwise_cons.mp h
    cases p with | mk e ts =>
    refine List.pairwise_cons.mpr ⟨?_, ih (n + 1) hrest⟩
    intro r hr
    obtain ⟨q, hq, hfq⟩ := insertedRows_focusedAt rest (n + 1) r hr
    have := hp q hq
    show (mkRow n e ts).focusedAt < r.focusedAt
    rw [hfq]
    exact this

/-- Core invariant of the insert-and-prune loop: starting from a store
whose rows are strictly increasing in `focusedAt`, within the bound, and
older than every pending timestamp, running a strictly-increasing batch of
recordings leaves exactly the final `MAX_ROWS`-sized suffix of
"old rows followed by all inserted rows". -/
lemma runEvents_rows_eq : ∀ (evs : List (FocusEntry × Nat)) (st : Store),
    (∀ p ∈ evs, jsTrim p.1.windowTitle ≠ "") →
    evs.Pairwise (fun a b => a.2 < b.2) →
    st.rows.Pairwise (fun a b => a.focusedAt < b.focusedAt) →
    st.rows.length ≤ MAX_ROWS →
    (∀ r ∈ st.rows, ∀ p ∈ evs, r.focusedAt < p.2) →
    (runEvents evs st).rows =
      (st.rows ++ insertedRows evs st.nextId).drop (st.rows.length + evs.length - MAX_ROWS) := by
  intro evs
  induction evs with
  | nil =>
    intro st _ _ _ hlen _
    simp only [runEvents, List.foldl_nil, insertedRows, List.append_nil, List.length_nil,
      Nat.add_zero]
    rw [Nat.sub_eq_zero_of_le hlen, List.drop_zero]
  | cons p rest ih =>
    intro st hne hmono hsorted hlen hlt
    cases p with | mk e ts =>
    have htitle : jsTrim e.windowTitle ≠ "" := hne (e, ts) (List.mem_cons_self _ _)
    obtain ⟨hts, hmrest⟩ := List.pairwise_cons.mp hmono
    have hcross : ∀ x ∈ st.rows, x.focusedAt < ts :=
      fun x hx => hlt x hx (e, ts) (List.mem_cons_self _ _)
    have hsorted' : (st.rows ++ [mkRow st.nextId e ts]).Pairwise
        (fun a b => a.focusedAt < b.focusedAt) := by
      rw [List.pairwise_append]
      refine ⟨hsorted, List.pairwise_singleton _ _, ?_⟩
      intro x hx b hb
      rw [List.mem_singleton.mp hb]
      exact hcross x hx
    have hstep : runEvents ((e, ts) :: rest) st =
        runEvents rest ⟨pruneRows (st.rows ++ [mkRow st.nextId e ts]), st.nextId + 1⟩ := by
      simp only [runEvents, List.foldl_cons, recordFocusEvent, if_neg htitle]
    have hprune : pruneRows (st.rows ++ [mkRow st.nextId e ts]) =
        (st.rows ++ [mkRow st.nextId e ts]).drop (st.rows.length + 1 - MAX_ROWS) := by
      rw [pruneRows_sorted hsorted']
      simp
    rw [hstep]
    rcases Nat.lt_or_ge st.rows.length MAX_ROWS with hcase | hcase
    · -- below the bound: nothing is pruned
      have hdrop0 : st.rows.length + 1 - MAX_ROWS = 0 := by omega
      have hrows' : pruneRows (st.rows ++ [mkRow st.nextId e ts]) =
          st.rows ++ [mkRow st.nextId e ts] := by
        rw [hprune, hdrop0, List.drop_zero]
      have hres := ih ⟨pruneRows (st.rows ++ [mkRow st.nextId e ts]), st.nextId + 1⟩
        (fun q hq => hne q (List.mem_cons_of_mem _ hq)) hmrest
        (by rw [hrows']; exact hsorted')
        (by rw [hrows']; simp only [List.length_append, List.length_cons, List.length_nil]; omega)
        (by
          rw [hrows']
          intro r hr q hq
          rcases List.mem_append.mp hr with hmem | hmem
          · exact hlt r hmem q (List.mem_cons_of_mem _ hq)
          · rw [List.mem_singleton.mp hmem]
            exact hts q hq)
      rw [hres, hrows']
      show ((st.rows ++ [mkRow st.nextId e ts]) ++ insertedRows rest (st.nextId + 1)).drop _ = _
      rw [List.append_assoc, List.singleton_append]
      show _ = (st.rows ++ insertedRows ((e, ts) :: rest) st.nextId).drop
          (st.rows.length + ((e, ts) :: rest).length - MAX_ROWS)
      have hidx : (st.rows ++ [mkRow st.nextId e ts]).length + rest.length - MAX_ROWS =
          st.rows.length + ((e, ts) :: rest).length - MAX_ROWS := by
        simp only [List.length_append, List.length_cons, List.length_nil]
        omega
      rw [hidx]
      rfl
    · -- at the bound: the oldest row is pruned away
      have hlen500 : st.rows.length = MAX_ROWS := Nat.le_antisymm hlen hcase
      have hdrop1 : st.rows.length + 1 - MAX_ROWS = 1 := by omega
      have hrows' : pruneRows (st.rows ++ [mkRow st.nextId e ts]) =
          (st.rows ++ [mkRow st.nextId e ts]).drop 1 := by
        rw [hprune, hdrop1]
      have hsub : ∀ r ∈ (st.rows ++ [mkRow st.nextId e ts]).drop 1,
          r ∈ st.rows ++ [mkRow st.nextId e ts] :=
        fun r hr => List.drop_subset 1 _ hr
      have hres := ih ⟨pruneRows (st.rows ++ [mkRow st.nextId e ts]), st.nextId + 1⟩
        (fun q hq => hne q (List.mem_cons_of_mem _ hq)) hmrest
        (by rw [hrows']; exact hsorted'.drop)
        (by
          rw [hrows', List.length_drop]
          simp only [List.length_append, List.length_cons, List.length_nil]
          omega)
        (by
          rw [hrows']
          intro r hr q hq
          rcases List.mem_append.mp (hsub r hr) with hmem | hmem
          · exact hlt r hmem q (List.mem_cons_of_mem _ hq)
          · rw [List.mem_singleton.mp hmem]
            exact hts q hq)
      rw [hres, hrows']
      have hlenrows' : ((st.rows ++ [mkRow st.nextId e ts]).drop 1).length = MAX_ROWS := by
        rw [List.length_drop]
        simp only [List.length_append, List.length_cons, List.length_nil]
        omega
      rw [hlenrows']
      have hidxL : MAX_ROWS + rest.length - MAX_ROWS = rest.length := by omega
      rw [hidxL]
      have hidxR : st.rows.length + ((e, ts) :: rest).length - MAX_ROWS = rest.length + 1 := by
        simp only [List.length_cons]
        omega
      show _ = (st.rows ++ insertedRows ((e, ts) :: rest) st.nextId).drop
          (st.rows.length + ((e, ts) :: rest).length - MAX_ROWS)
      rw [hidxR]
      show ((st.rows ++ [mkRow st.nextId e ts]).drop 1 ++ insertedRows rest (st.nextId + 1)).drop rest.length
          = (st.rows ++ mkRow st.nextId e ts :: insertedRows rest (st.nextId + 1)).drop (rest.length + 1)
      have happ : st.rows ++ mkRow st.nextId e ts :: insertedRows rest (st.nextId + 1)
          = (st.rows ++ [mkRow st.nextId e ts]) ++ insertedRows rest (st.nextId + 1) := by
        rw [List.append_assoc, List.singleton_append]
      have hlen1 : 1 ≤ (st.rows ++ [mkRow st.nextId e ts]).length := by
        simp only [List.length_append, List.length_cons, List.length_nil]
        omega
      rw [happ, drop_succ_append (st.rows ++ [mkRow st.nextId e ts])
        (insertedRows rest (st.nextId + 1)) rest.length hlen1]

/-- C1: for every sequence of `recordFocusEvent` calls (non-empty titles,
strictly increasing write timestamps), the store rows are exactly the
final `MAX_ROWS`-sized suffix of the inserted rows — so after each call
the store holds at most 500 rows, after more than 500 inserts exactly 500
remain, and every deleted row has a strictly smaller `focusedAt` than
every retained row; insert and prune happen in one operation. -/
theorem c1_insert_prune_bound (evs : List (FocusEntry × Nat))
    (hne : ∀ p ∈ evs, jsTrim p.1.windowTitle ≠ "")
    (hmono : evs.Pairwise (fun a b => a.2 < b.2)) :
    (runEvents evs emptyStore).rows = (insertedRows evs 1).drop (evs.length - MAX_ROWS)
    ∧ (runEvents evs emptyStore).rows.length ≤ MAX_ROWS
    ∧ (MAX_ROWS < evs.length →
        (runEvents evs emptyStore).rows.length = MAX_ROWS
        ∧ ∀ r ∈ (runEvents evs emptyStore).rows, ∀ s ∈ insertedRows evs 1,
            s ∉ (runEvents evs emptyStore).rows → s.focusedAt < r.focusedAt) := by
  have hmain0 := runEvents_rows_eq evs emptyStore hne hmono
    (by simp [emptyStore]) (by simp [emptyStore, MAX_ROWS]) (by simp [emptyStore])
  have hmain : (runEvents evs emptyStore).rows =
      (insertedRows evs 1).drop (evs.length - MAX_ROWS) := by
    simpa [emptyStore] using hmain0
  refine ⟨hmain, ?_, ?_⟩
  · rw [hmain, List.length_drop, insertedRows_length]
    omega
  · intro hgt
    refine ⟨?_, ?_⟩
    · rw [hmain, List.length_drop, insertedRows_length]
      omega
    · intro r hr s hs hsnot
      have hsplit := List.take_append_drop (evs.length - MAX_ROWS) (insertedRows evs 1)
      have hmem2 : s ∈ (insertedRows evs 1).take (evs.length - MAX_ROWS) ++
          (insertedRows evs 1).drop (evs.length - MAX_ROWS) := by
        rw [hsplit]; exact hs
      rcases List.mem_append.mp hmem2 with htake | hdrop
      · have hpw := insertedRows_pairwise evs 1 hmono
        rw [← hsplit] at hpw
        have hr2 : r ∈ (insertedRows evs 1).drop (evs.length - MAX_ROWS) := by
          rw [← hmain]; exact hr
        exact (List.pairwise_append.mp hpw).2.2 s htake r hr2
      · exact absurd (by rw [hmain]; exact hdrop) hsnot

/-- Concrete 501-call batch used to exercise `c1_insert_prune_bound`. -/
def c1WitnessEvents : List (FocusEntry × Nat) :=
  (List.range (MAX_ROWS + 1)).map fun i => (⟨"s", "t", none, none, none⟩, i)

theorem c1_insert_prune_bound_witness :
    (runEvents c1WitnessEvents emptyStore).rows.length = MAX_ROWS := by
  have h1 : ∀ p ∈ c1WitnessEvents, jsTrim p.1.windowTitle ≠ "" := by
    intro p hp
    simp only [c1WitnessEvents, List.mem_map] at hp
    obtain ⟨i, _, rfl⟩ := hp
    show jsTrim "t" ≠ ""
    decide
  have h2 : c1WitnessEvents.Pairwise (fun a b => a.2 < b.2) := by
    simp only [c1WitnessEvents]
    exact List.Pairwise.map _ (fun a b h => h) (List.pairwise_lt_range _)
  have h3 : MAX_ROWS < c1WitnessEvents.length := by
    simp only [c1WitnessEvents, List.length_map, List.length_range]
    omega
  exact ((c1_insert_prune_bound c1WitnessEvents h1 h2).2.2 h3).1

/-! ## Lemmas about the query (getLastNonDotWindow) -/

lemma foldl_max_mem : ∀ (l : List FocusRow) (a : FocusRow),
    l.foldl (fun m s => if keyGtB s m then s else m) a ∈ a :: l := by
  intro l
  induction l with
  | nil => intro a; exact List.mem_singleton.mpr rfl
  | cons s l ih =>
    intro a
    rw [List.foldl_cons]
    have h := ih (if keyGtB s a then s else a)
    rcases List.mem_cons.mp h with h1 | h1
    · rw [h1]
      by_cases hk : keyGtB s a = true
      · rw [if_pos hk]
        exact List.mem_cons_of_mem _ (List.mem_cons_self _ _)
      · rw [if_neg hk]
        exact List.mem_cons_self _ _
    · exact List.mem_cons_of_mem _ (List.mem_cons_of_mem _ h1)

lemma foldl_max_ge : ∀ (l : List FocusRow) (a x : FocusRow), x ∈ a :: l →
    x.focusedAt ≤ (l.foldl (fun m s => if keyGtB s m then s else m) a).focusedAt := by
  intro l
  induction l with
  | nil =>
    intro a x hx
    rw [List.mem_singleton.mp hx]
    exact Nat.le_refl _
  | cons s l ih =>
    intro a x hx
    rw [List.foldl_cons]
    have hab : a.focusedAt ≤ (if keyGtB s a then s else a).focusedAt := by
      by_cases hk : keyGtB s a = true
      · rw [if_pos hk]
        simp only [keyGtB, decide_eq_true_eq] at hk
        omega
      · rw [if_neg hk]
    have hsb : s.focusedAt ≤ (if keyGtB s a then s else a).focusedAt := by
      by_cases hk : keyGtB s a = true
      · rw [if_pos hk]
      · rw [if_neg hk]
        simp only [keyGtB, decide_eq_true_eq] at hk
        omega
    have hbase := ih (if keyGtB s a then s else a)
      (if keyGtB s a then s else a) (List.mem_cons_self _ _)
    rcases List.mem_cons.mp hx with rfl | hx2
    · exact Nat.le_trans hab hbase
    · rcases List.mem_cons.mp hx2 with rfl | hx3
      · exact Nat.le_trans hsb hbase
      · exact ih _ x (List.mem_cons_of_mem _ hx3)

lemma maxRow_mem : ∀ {l : List FocusRow} {r : FocusRow}, maxRow l = some r → r ∈ l := by
  intro l r h
  cases l with
  | nil => cases h
  | cons a rest =>
    simp only [maxRow, Option.some.injEq] at h
    rw [← h]
    exact foldl_max_mem rest a

lemma maxRow_ge : ∀ {l : List FocusRow} {r : FocusRow}, maxRow l = some r →
    ∀ s ∈ l, s.focusedAt ≤ r.focusedAt := by
  intro l r h s hs
  cases l with
  | nil => cases hs
  | cons a rest =>
    simp only [maxRow, Option.some.injEq] at h
    rw [← h]
    exact foldl_max_ge rest a s hs

/-- When every stored row carries a non-empty title, the query returns
exactly the `keyGtB`-maximal qualifying row. -/
lemma getLast_eq_of_maxRow {st : Store} {ex : String} {app : Option String} {m : FocusRow}
    (htitle : ∀ r ∈ st.rows, r.windowTitle.getD "" ≠ "")
    (hm : maxRow (st.rows.filter (rowQualifiesB ex app)) = some m) :
    getLastNonDotWindow ex app st = some m := by
  have hmem : m ∈ st.rows := (List.mem_filter.mp (maxRow_mem hm)).1
  have ht := htitle m hmem
  cases hwt : m.windowTitle with
  | none => rw [hwt] at ht; simp at ht
  | some t =>
    rw [hwt] at ht
    simp only [Option.getD_some] at ht
    unfold getLastNonDotWindow
    rw [hm]
    simp only [hwt]
    rw [if_neg ht]

/-- Store obtained by recording a single event whose appId is "x". -/
def c2Store : Store :=
  recordFocusEvent ⟨"a", "title1", none, none, some "x"⟩ 100 emptyStore

/-- C2 counterexample: querying with the filter `appId = some ""` (an
empty-string appId was "given") still returns the row whose appId is
`some "x"`, because the JavaScript truthiness test drops a falsy appId
filter entirely — the claim instead demands that the returned row's appId
equal the filter's, so no row should have qualified. -/
theorem c2_query_filter_counterexample :
    getLastNonDotWindow "b" (some "") c2Store =
      some ⟨1, "a", some "title1", none, none, none, 100, some "x"⟩
    ∧ (⟨1, "a", some "title1", none, none, none, 100, some "x"⟩ : FocusRow).appId ≠ some "" := by
  constructor
  · decide
  · decide

/-- C2 (amended): for stores whose rows all carry a non-empty title (as
every row written by `recordFocusEvent` does), `getLastNonDotWindow`
returns "none found" exactly when no row qualifies, and otherwise a
qualifying stored row with the greatest `focusedAt` among qualifying
rows; the qualifying predicate excludes the caller's session and
workspace names ending in ".", and applies the appId filter only when the
given appId is non-empty (a null or empty appId means no filter).  The
function is pure, so repeated calls on the same store agree. -/
theorem c2_query_last_relevant_amended (st : Store) (ex : String) (app : Option String)
    (htitle : ∀ r ∈ st.rows, r.windowTitle.getD "" ≠ "") :
    (getLastNonDotWindow ex app st = none ↔ st.rows.filter (rowQualifiesB ex app) = [])
    ∧ (∀ r, getLastNonDotWindow ex app st = some r →
        r ∈ st.rows ∧ rowQualifiesB ex app r = true ∧
        ∀ s ∈ st.rows, rowQualifiesB ex app s = true → s.focusedAt ≤ r.focusedAt)
    ∧ (∀ r : FocusRow, rowQualifiesB ex app r = true ↔
        (r.sessionId ≠ ex
         ∧ (∀ w, r.workspaceName = some w → (w = "" ∨ jsEndsWith w "." = false))
         ∧ (∀ a, app = some a → a ≠ "" → r.appId = some a))) := by
  refine ⟨?_, ?_, ?_⟩
  · constructor
    · intro hnone
      cases hfilt : st.rows.filter (rowQualifiesB ex app) with
      | nil => rfl
      | cons q qs =>
        have hm : maxRow (st.rows.filter (rowQualifiesB ex app)) =
            some (qs.foldl (fun m s => if keyGtB s m then s else m) q) := by
          rw [hfilt]; rfl
        rw [getLast_eq_of_maxRow htitle hm] at hnone
        cases hnone
    · intro hnil
      unfold getLastNonDotWindow
      rw [hnil]
      rfl
  · intro r hr
    cases hmx : maxRow (st.rows.filter (rowQualifiesB ex app)) with
    | none =>
      unfold getLastNonDotWindow at hr
      rw [hmx] at hr
      cases hr
    | some m =>
      have h2 := getLast_eq_of_maxRow htitle hmx
      rw [h2] at hr
      obtain rfl : m = r := Option.some.inj hr
      have hmem := List.mem_filter.mp (maxRow_mem hmx)
      refine ⟨hmem.1, hmem.2, ?_⟩
      intro s hs hq
      exact maxRow_ge hmx s (List.mem_filter.mpr ⟨hs, hq⟩)
  · intro r
    unfold rowQualifiesB
    cases hw : r.workspaceName with
    | none =>
      cases app with
      | none =>
        simp only [Bool.and_true, bne_iff_ne, ne_eq]
        constructor
        · intro h
          refine ⟨h, ?_, ?_⟩
          · intro w hww
            exact Option.noConfusion hww
          · intro a ha
            exact Option.noConfusion ha
        · intro h
          exact h.1
      | some a =>
        simp only [Bool.and_eq_true, Bool.and_true, bne_iff_ne, ne_eq, Bool.or_eq_true,
          beq_iff_eq]
        constructor
        · rintro ⟨h1, h3⟩
          refine ⟨h1, ?_, ?_⟩
          · intro w hww
            exact Option.noConfusion hww
          · rintro a2 ha2 hane
            obtain rfl : a = a2 := Option.some.inj ha2
            rcases h3 with h3 | h3
            · exact absurd h3 hane
            · exact h3
        · rintro ⟨h1, -, h3⟩
          refine ⟨h1, ?_⟩
          by_cases hae : a = ""
          · exact Or.inl hae
          · exact Or.inr (h3 a rfl hae)
    | some w =>
      cases app with
      | none =>
        simp only [Bool.and_true, Bool.and_eq_true, bne_iff_ne, ne_eq, Bool.or_eq_true,
          beq_iff_eq, Bool.not_eq_true']
        constructor
        · rintro ⟨h1, h2⟩
          refine ⟨h1, ?_, ?_⟩
          · rintro w2 hw2
            obtain rfl : w = w2 := Option.some.inj hw2
            exact h2
          · intro a ha
            exact Option.noConfusion ha
        · rintro ⟨h1, h2, -⟩
          exact ⟨h1, h2 w rfl⟩
      | some a =>
        simp only [Bool.and_eq_true, bne_iff_ne, ne_eq, Bool.or_eq_true, beq_iff_eq,
          Bool.not_eq_true']
        constructor
        · rintro ⟨⟨h1, h2⟩, h3⟩
          refine ⟨h1, ?_, ?_⟩
          · rintro w2 hw2
            obtain rfl : w = w2 := Option.some.inj hw2
            exact h2
          · rintro a2 ha2 hane
            obtain rfl : a = a2 := Option.some.inj ha2
            rcases h3 with h3 | h3
            · exact absurd h3 hane
            · exact h3
        · rintro ⟨h1, h2, h3⟩
          refine ⟨⟨h1, h2 w rfl⟩, ?_⟩
          by_cases hae : a = ""
          · exact Or.inl hae
          · exact Or.inr (h3 a rfl hae)

/-- Two-row store used to exercise the amended C2 theorem. -/
def c2WitnessStore : Store :=
  ⟨[⟨1, "sa", some "ta", none, none, none, 100, some "vscode"⟩,
    ⟨2, "sb", some "tb", none, none, none, 200, some "cursor"⟩], 3⟩

theorem c2_query_last_relevant_amended_witness :
    (⟨2, "sb", some "tb", none, none, none, 200, some "cursor"⟩ : FocusRow) ∈ c2WitnessStore.rows
    ∧ rowQualifiesB "sx" none ⟨2, "sb", some "tb", none, none, none, 200, some "cursor"⟩ = true
    ∧ ∀ s ∈ c2WitnessStore.rows, rowQualifiesB "sx" none s = true →
        s.focusedAt ≤ (⟨2, "sb", some "tb", none, none, none, 200, some "cursor"⟩ : FocusRow).focusedAt :=
  (c2_query_last_relevant_amended c2WitnessStore "sx" none (by decide)).2.1
    ⟨2, "sb", some "tb", none, none, none, 200, some "cursor"⟩ (by decide)

/-- C9: the query never returns a record whose windowTitle is null or
empty — whenever it returns a row, that row's title is a non-empty
string; and on an empty store (empty reply) it returns the "none found"
outcome, not an error. -/
theorem c9_no_empty_title_result (st : Store) (ex : String) (app : Option String) :
    (∀ r, getLastNonDotWindow ex app st = some r → ∃ t, r.windowTitle = some t ∧ t ≠ "")
    ∧ (∀ n : Nat, getLastNonDotWindow ex app ⟨[], n⟩ = none) := by
  constructor
  · intro r hr
    unfold getLastNonDotWindow at hr
    cases hmx : maxRow (st.rows.filter (rowQualifiesB ex app)) with
    | none =>
      rw [hmx] at hr
      cases hr
    | some m =>
      rw [hmx] at hr
      cases hwt : m.windowTitle with
      | none =>
        simp only [hwt] at hr
        exact Option.noConfusion hr
      | some t =>
        simp only [hwt] at hr
        by_cases ht : t = ""
        · rw [if_pos ht] at hr
          cases hr
        · rw [if_neg ht] at hr
          obtain rfl : m = r := Option.some.inj hr
          exact ⟨t, hwt, ht⟩
  · intro n
    rfl

/-- Single-row store used to exercise the C9 theorem. -/
def c9WitnessStore : Store :=
  ⟨[⟨1, "a", some "hello", none, none, none, 50, none⟩], 2⟩

theorem c9_no_empty_title_result_witness :
    ∃ t, (⟨1, "a", some "hello", none, none, none, 50, none⟩ : FocusRow).windowTitle =
        some t ∧ t ≠ "" :=
  (c9_no_empty_title_result c9WitnessStore "x" none).1
    ⟨1, "a", some "hello", none, none, none, 50, none⟩ (by decide)

/-! ## Lemmas about the title split (extractWorkspaceName) -/

lemma getLastD_of_ne_nil {α : Type} : ∀ (l : List α), l ≠ [] → ∀ (d d' : α),
    l.getLastD d = l.getLastD d' := by
  intro l
  induction l with
  | nil => intro h; exact absurd rfl h
  | cons a l ih =>
    intro _ d d'
    cases l with
    | nil => rfl
    | cons b t => rfl

lemma splitOn3_ne_nil (s0 s1 s2 : Char) : ∀ cs, splitOn3 s0 s1 s2 cs ≠ [] := by
  intro cs
  induction cs using splitOn3.induct s0 s1 s2 with
  | case1 c0 c1 c2 rest h ih => simp [splitOn3, h]
  | case2 c0 c1 c2 rest h hnil ih => exact absurd hnil ih
  | case3 c0 c1 c2 rest h seg segs hcons ih => simp [splitOn3, h, hcons]
  | case4 cs hshape =>
    rcases cs with _ | ⟨a, _ | ⟨b, _ | ⟨c, rest⟩⟩⟩
    · simp [splitOn3]
    · simp [splitOn3]
    · simp [splitOn3]
    · exact absurd rfl (hshape a b c rest)

lemma splitOn3_of_not_contains (s0 s1 s2 : Char) : ∀ cs,
    containsSeq3 s0 s1 s2 cs = false → splitOn3 s0 s1 s2 cs = [cs] := by
  intro cs
  induction cs using splitOn3.induct s0 s1 s2 with
  | case1 c0 c1 c2 rest h ih =>
    intro hc
    simp [containsSeq3, h] at hc
  | case2 c0 c1 c2 rest h hnil ih =>
    intro _
    exact absurd hnil (splitOn3_ne_nil s0 s1 s2 _)
  | case3 c0 c1 c2 rest h seg segs hcons ih =>
    intro hc
    have hc' : containsSeq3 s0 s1 s2 (c1 :: c2 :: rest) = false := by
      simp only [containsSeq3, Bool.or_eq_false_iff] at hc
      exact hc.2
    have hrec := ih hc'
    rw [hcons] at hrec
    obtain ⟨hseg, hsegs⟩ : seg = c1 :: c2 :: rest ∧ segs = [] := by
      constructor
      · exact (List.cons.injEq _ _ _ _ ▸ hrec).1
      · exact (List.cons.injEq _ _ _ _ ▸ hrec).2
    subst hseg
    subst hsegs
    simp [splitOn3, h, hcons]
  | case4 cs hshape =>
    intro _
    rcases cs with _ | ⟨a, _ | ⟨b, _ | ⟨c, rest⟩⟩⟩
    · simp [splitOn3]
    · simp [splitOn3]
    · simp [splitOn3]
    · exact absurd rfl (hshape a b c rest)

lemma splitOn3_length_ge_two (s0 s1 s2 : Char) : ∀ cs,
    containsSeq3 s0 s1 s2 cs = true → 2 ≤ (splitOn3 s0 s1 s2 cs).length := by
  intro cs
  induction cs using splitOn3.induct s0 s1 s2 with
  | case1 c0 c1 c2 rest h ih =>
    intro _
    have hne := splitOn3_ne_nil s0 s1 s2 rest
    have hpos := List.length_pos.mpr hne
    simp only [splitOn3, h, if_true, List.length_cons]
    omega
  | case2 c0 c1 c2 rest h hnil ih =>
    intro _
    exact absurd hnil (splitOn3_ne_nil s0 s1 s2 _)
  | case3 c0 c1 c2 rest h seg segs hcons ih =>
    intro hc
    have hc' : containsSeq3 s0 s1 s2 (c1 :: c2 :: rest) = true := by
      simp only [containsSeq3, Bool.or_eq_true] at hc
      rcases hc with hc | hc
      · exact absurd hc h
      · exact hc
    have hrec := ih hc'
    rw [hcons] at hrec
    simp only [List.length_cons] at hrec
    have hsplit : splitOn3 s0 s1 s2 (c0 :: c1 :: c2 :: rest) = (c0 :: seg) :: segs := by
      simp [splitOn3, h, hcons]
    rw [hsplit]
    simp only [List.length_cons]
    omega
  | case4 cs hshape =>
    intro hc
    rcases cs with _ | ⟨a, _ | ⟨b, _ | ⟨c, rest⟩⟩⟩
    · simp [containsSeq3] at hc
    · simp [containsSeq3] at hc
    · simp [containsSeq3] at hc
    · exact absurd rfl (hshape a b c rest)

/-- The final segment of a JS `split` is the text after the last
(scan-order) separator match, and itself contains no separator. -/
lemma splitOn3_last_decomp (s0 s1 s2 : Char) : ∀ cs,
    containsSeq3 s0 s1 s2 cs = true →
    ∃ pre, cs = pre ++ [s0, s1, s2] ++ (splitOn3 s0 s1 s2 cs).getLastD []
      ∧ containsSeq3 s0 s1 s2 ((splitOn3 s0 s1 s2 cs).getLastD []) = false := by
  intro cs
  induction cs using splitOn3.induct s0 s1 s2 with
  | case1 c0 c1 c2 rest h ih =>
    intro _
    obtain ⟨⟨hc0, hc1⟩, hc2⟩ : (c0 = s0 ∧ c1 = s1) ∧ c2 = s2 := by simpa using h
    have hsplit : splitOn3 s0 s1 s2 (c0 :: c1 :: c2 :: rest) = [] :: splitOn3 s0 s1 s2 rest := by
      simp [splitOn3, h]
    have hlastEq : (splitOn3 s0 s1 s2 (c0 :: c1 :: c2 :: rest)).getLastD [] =
        (splitOn3 s0 s1 s2 rest).getLastD [] := by
      rw [hsplit, List.getLastD_cons]
    by_cases hcr : containsSeq3 s0 s1 s2 rest = true
    · obtain ⟨pre, hdec, hlast⟩ := ih hcr
      refine ⟨[s0, s1, s2] ++ pre, ?_, ?_⟩
      · rw [hlastEq]
        simp only [List.append_assoc, List.cons_append, List.nil_append] at hdec ⊢
        rw [hc0, hc1, hc2, ← hdec]
      · rw [hlastEq]
        exact hlast
    · have hcr' : containsSeq3 s0 s1 s2 rest = false := by
        cases hb : containsSeq3 s0 s1 s2 rest
        · rfl
        · exact absurd hb hcr
      have hr : splitOn3 s0 s1 s2 rest = [rest] := splitOn3_of_not_contains s0 s1 s2 rest hcr'
      refine ⟨[], ?_, ?_⟩
      · rw [hlastEq, hr]
        simp only [List.getLastD_cons, List.getLastD_nil, List.nil_append, List.cons_append]
        rw [hc0, hc1, hc2]
      · rw [hlastEq, hr]
        simp only [List.getLastD_cons, List.getLastD_nil]
        exact hcr'
  | case2 c0 c1 c2 rest h hnil ih =>
    intro _
    exact absurd hnil (splitOn3_ne_nil s0 s1 s2 _)
  | case3 c0 c1 c2 rest h seg segs hcons ih =>
    intro hc
    have hc' : containsSeq3 s0 s1 s2 (c1 :: c2 :: rest) = true := by
      simp only [containsSeq3, Bool.or_eq_true] at hc
      rcases hc with hc | hc
      · exact absurd hc h
      · exact hc
    obtain ⟨pre, hdec, hlast⟩ := ih hc'
    have hsplit : splitOn3 s0 s1 s2 (c0 :: c1 :: c2 :: rest) = (c0 :: seg) :: segs := by
      simp [splitOn3, h, hcons]
    have hlen := splitOn3_length_ge_two s0 s1 s2 (c1 :: c2 :: rest) hc'
    rw [hcons] at hlen
    simp only [List.length_cons] at hlen
    have hsegs : segs ≠ [] := by
      cases segs with
      | nil => simp at hlen
      | cons x xs => simp
    have hlastEq : (splitOn3 s0 s1 s2 (c0 :: c1 :: c2 :: rest)).getLastD [] =
        (splitOn3 s0 s1 s2 (c1 :: c2 :: rest)).getLastD [] := by
      rw [hsplit, hcons, List.getLastD_cons, List.getLastD_cons]
      exact getLastD_of_ne_nil segs hsegs _ _
    refine ⟨c0 :: pre, ?_, ?_⟩
    · rw [hlastEq]
      simp only [List.cons_append, List.append_assoc, List.nil_append] at hdec ⊢
      rw [← hdec]
    · rw [hlastEq]
      exact hlast
  | case4 cs hshape =>
    intro hc
    rcases cs with _ | ⟨a, _ | ⟨b, _ | ⟨c, rest⟩⟩⟩
    · simp [containsSeq3] at hc
    · simp [containsSeq3] at hc
    · simp [containsSeq3] at hc
    · exact absurd rfl (hshape a b c rest)

/-- Workspace-name derivation exactly as the claim words it: whenever a
separator occurs, the (trimmed) segment after its last occurrence —
including an empty segment, which trims to the empty string. -/
def claimExtractWorkspaceName (t : String) : Option String :=
  if containsSeq3 ' ' emDashChar ' ' t.data then
    some (String.mk (trimChars ((splitOn3 ' ' emDashChar ' ' t.data).getLastD [])))
  else if containsSeq3 ' ' '-' ' ' t.data then
    some (String.mk (trimChars ((splitOn3 ' ' '-' ' ' t.data).getLastD [])))
  else none

/-- C3 counterexample: on the title "Foo — " the em-dash separator occurs
and the segment after its last occurrence is the empty string, so the
claim's rule yields `some ""` — but the code's JS truthiness test on the
empty segment yields `null` instead. -/
theorem c3_extract_counterexample :
    extractWorkspaceName "Foo — " = none
    ∧ claimExtractWorkspaceName "Foo — " = some ""
    ∧ extractWorkspaceName "Foo — " ≠ claimExtractWorkspaceName "Foo — " := by
  refine ⟨by decide, by decide, by decide⟩

/-- C3 (amended): when the em-dash separator " — " occurs in the title,
the result is the trimmed final split segment (the text after the last
scan-order separator match, itself separator-free) — except that an empty
final segment yields `null`; otherwise the same for the plain " - "
separator; otherwise `null`.  The claim's examples hold. -/
theorem c3_extract_workspace_amended (t : String) :
    (containsSeq3 ' ' emDashChar ' ' t.data = true →
      ∃ pre seg, t.data = pre ++ [' ', emDashChar, ' '] ++ seg
        ∧ containsSeq3 ' ' emDashChar ' ' seg = false
        ∧ extractWorkspaceName t =
            (if seg.isEmpty then none else some (String.mk (trimChars seg))))
    ∧ (containsSeq3 ' ' emDashChar ' ' t.data = false →
        containsSeq3 ' ' '-' ' ' t.data = true →
      ∃ pre seg, t.data = pre ++ [' ', '-', ' '] ++ seg
        ∧ containsSeq3 ' ' '-' ' ' seg = false
        ∧ extractWorkspaceName t =
            (if seg.isEmpty then none else some (String.mk (trimChars seg))))
    ∧ (containsSeq3 ' ' emDashChar ' ' t.data = false →
        containsSeq3 ' ' '-' ' ' t.data = false →
        extractWorkspaceName t = none)
    ∧ extractWorkspaceName "Foo — bar.code-workspace" = some "bar.code-workspace"
    ∧ extractWorkspaceName "Foo - baz" = some "baz"
    ∧ extractWorkspaceName "FooBar" = none := by
  refine ⟨?_, ?_, ?_, by decide, by decide, by decide⟩
  · intro hc
    obtain ⟨pre, hdec, hlast⟩ := splitOn3_last_decomp ' ' emDashChar ' ' t.data hc
    refine ⟨pre, (splitOn3 ' ' emDashChar ' ' t.data).getLastD [], hdec, hlast, ?_⟩
    simp only [extractWorkspaceName, hc, if_true]
  · intro hcem hcpl
    obtain ⟨pre, hdec, hlast⟩ := splitOn3_last_decomp ' ' '-' ' ' t.data hcpl
    refine ⟨pre, (splitOn3 ' ' '-' ' ' t.data).getLastD [], hdec, hlast, ?_⟩
    simp only [extractWorkspaceName, hcem, hcpl, if_true, Bool.false_eq_true, if_false]
  · intro hcem hcpl
    simp only [extractWorkspaceName, hcem, hcpl, Bool.false_eq_true, if_false]

theorem c3_extract_workspace_amended_witness :
    ∃ pre seg, ("a — b" : String).data = pre ++ [' ', emDashChar, ' '] ++ seg
      ∧ containsSeq3 ' ' emDashChar ' ' seg = false
      ∧ extractWorkspaceName "a — b" =
          (if seg.isEmpty then none else some (String.mk (trimChars seg))) :=
  (c3_extract_workspace_amended "a — b").1 (by decide)

/-! ## The macOS window matcher (macos.ts) -/

/-- AppleScript text comparisons run here with the default
`considering` attributes (the script has no `considering case` block),
so `=` and `ends with` on text ignore letter case; modelled by ASCII
case folding, as for the `/i` regex flag. -/
def asFold (cs : List Char) : List Char := cs.map Char.toLower

/-- AppleScript `a = b` on text: case-insensitive equality. -/
def asEquals (a b : String) : Bool := asFold a.data == asFold b.data

/-- AppleScript `a ends with b` on text: case-insensitive suffix test. -/
def asEndsWith (s sfx : String) : Bool := (asFold sfx.data).isSuffixOf (asFold s.data)

/-- Embedding of the AppleScript `matchesWindow` handler: exact-title
match (case-insensitively) when a target title was supplied; otherwise
no match without a workspace hint; otherwise the em-dash convention
("— " followed by the hint as a title suffix), falling back to a plain
ends-with test — both case-insensitive, as AppleScript compares text by
default.  A comparison with "" is unaffected by case folding, so the
emptiness guards are plain equality. -/
def matchesWindow (theTitle targetTitle targetWorkspace : String) : Bool :=
  if targetTitle ≠ "" ∧ asEquals theTitle targetTitle = true then true
  else if targetWorkspace = "" then false
  else if asEndsWith theTitle (String.mk [emDashChar, ' '] ++ targetWorkspace) then true
  else if asEndsWith theTitle targetWorkspace then true
  else false

/-- C4 counterexample: AppleScript's default text comparison ignores
letter case, so the handler accepts a live title that is only a case
variant of the target title — the claim, whose clause (a) demands that
the target title *equal* the live title and whose clause (b) needs a
hint, predicts no match for ("FOO", target "foo", no hint). -/
theorem c4_matches_window_counterexample :
    matchesWindow "FOO" "foo" "" = true
    ∧ ¬ ((("foo" : String) ≠ "" ∧ ("FOO" : String) = "foo")
        ∨ (("" : String) ≠ "" ∧ (jsEndsWith "FOO" (String.mk [emDashChar, ' '] ++ "") = true
            ∨ jsEndsWith "FOO" "" = true))) := by
  refine ⟨by decide, ?_⟩
  rintro (⟨-, h⟩ | ⟨h, -⟩)
  · exact absurd h (by decide)
  · exact absurd rfl h

/-- C4 (amended): with AppleScript's default case-insensitive text
comparisons, the matching predicate holds iff an exact target title was
supplied and case-insensitively equals the live title, or a hint was
supplied and the live title case-insensitively ends with "— " followed
by the hint or, failing that, plainly (case-insensitively) ends with the
hint; it never holds when neither is supplied.  "main.rs — myrepo"
matches hint "myrepo" on the em-dash path, matches hint "repo" only
through the ends-with fallback (the em-dash test fails for it), a title
without an em-dash segment ("myrepo") matches "repo" through the
fallback, and a case-variant title still matches. -/
theorem c4_matches_window_amended (t tt w : String) :
    (matchesWindow t tt w = true ↔
      ((tt ≠ "" ∧ asEquals t tt = true) ∨
       (w ≠ "" ∧ (asEndsWith t (String.mk [emDashChar, ' '] ++ w) = true
                  ∨ asEndsWith t w = true))))
    ∧ matchesWindow t "" "" = false
    ∧ matchesWindow "main.rs — myrepo" "" "myrepo" = true
    ∧ asEndsWith "main.rs — myrepo" (String.mk [emDashChar, ' '] ++ "myrepo") = true
    ∧ matchesWindow "main.rs — myrepo" "" "repo" = true
    ∧ asEndsWith "main.rs — myrepo" (String.mk [emDashChar, ' '] ++ "repo") = false
    ∧ matchesWindow "myrepo" "" "repo" = true
    ∧ asEndsWith "myrepo" (String.mk [emDashChar, ' '] ++ "repo") = false
    ∧ matchesWindow "main.rs — MYREPO" "" "myrepo" = true := by
  refine ⟨?_, ?_, by decide, by decide, by decide, by decide, by decide, by decide, by decide⟩
  · unfold matchesWindow
    by_cases h1 : tt ≠ "" ∧ asEquals t tt = true
    · rw [if_pos h1]
      simp [h1]
    · rw [if_neg h1]
      by_cases h2 : w = ""
      · rw [if_pos h2]
        simp [h1, h2]
      · rw [if_neg h2]
        by_cases h3 : asEndsWith t (String.mk [emDashChar, ' '] ++ w) = true
        · rw [if_pos h3]
          simp [h1, h2, h3]
        · rw [if_neg h3]
          by_cases h4 : asEndsWith t w = true
          · rw [if_pos h4]
            simp [h1, h2, h3, h4]
          · rw [if_neg h4]
            simp [h1, h2, h3, h4]
  · unfold matchesWindow
    rw [if_neg (by simp), if_pos rfl]

/-! ## The focus coordinator debounce (index.ts) -/

/-- Debounce window in milliseconds. -/
def DEBOUNCE_MS : Nat := 500

/-- The coordinator's module-level mutable state: the signature of the
last recorded call and the time it was recorded. -/
structure CoordState where
  lastLoggedSignature : Option String
  lastLoggedAt : Nat
  deriving DecidableEq

/-- State at extension start: `lastLoggedSignature = null`, `lastLoggedAt = 0`. -/
def initialCoordState : CoordState := ⟨none, 0⟩

/-- The debounce signature: `appId + ":" + title`. -/
def signatureOf (appId title : String) : String := appId ++ ":" ++ title

/-- Embedding of `logWindowFocus` after a frontmost window was detected:
skip (recording nothing and leaving all state unchanged) when the call is
not forced, the signature equals the previous recorded one, and fewer
than `DEBOUNCE_MS` ms have elapsed; otherwise update the debounce state
and record the event.  Returns whether a recording was attempted. -/
def logWindowFocus (force : Bool) (sessionId appId title : String)
    (workspacePath activeFile : Option String) (now : Nat)
    (cs : CoordState) (st : Store) : Bool × CoordState × Store :=
  if !force && (cs.lastLoggedSignature == some (signatureOf appId title))
      && decide (now - cs.lastLoggedAt < DEBOUNCE_MS) then
    (false, cs, st)
  else
    (true, ⟨some (signatureOf appId title), now⟩,
      recordFocusEvent ⟨sessionId, title, workspacePath, activeFile, some appId⟩ now st)

/-- C5: after a non-forced call from the fresh coordinator state records
a row, a second identical non-forced call within 500 ms records nothing
(same state, same store, exactly one row was added by the pair), whereas
the same second call at least 500 ms later, or with force set, records a
second row. -/
theorem c5_debounce (sessionId appId title : String) (workspacePath activeFile : Option String)
    (t0 now : Nat) (st0 : Store)
    (htitle : jsTrim title ≠ "") (hroom : st0.rows.length + 2 ≤ MAX_ROWS)
    (b1 : Bool) (cs1 : CoordState) (st1 : Store)
    (hcall1 : logWindowFocus false sessionId appId title workspacePath activeFile t0
        initialCoordState st0 = (b1, cs1, st1)) :
    b1 = true
    ∧ st1.rows.length = st0.rows.length + 1
    ∧ (now - t0 < DEBOUNCE_MS →
        logWindowFocus false sessionId appId title workspacePath activeFile now cs1 st1 =
          (false, cs1, st1))
    ∧ (DEBOUNCE_MS ≤ now - t0 →
        (logWindowFocus false sessionId appId title workspacePath activeFile now cs1 st1).2.2.rows.length =
          st0.rows.length + 2)
    ∧ (logWindowFocus true sessionId appId title workspacePath activeFile now cs1 st1).2.2.rows.length =
        st0.rows.length + 2 := by
  have hrec1 : recordFocusEvent ⟨sessionId, title, workspacePath, activeFile, some appId⟩ t0 st0 =
      ⟨st0.rows ++ [mkRow st0.nextId ⟨sessionId, title, workspacePath, activeFile, some appId⟩ t0],
       st0.nextId + 1⟩ := by
    unfold recordFocusEvent
    rw [if_neg htitle]
    have hb : (st0.rows ++ [mkRow st0.nextId
        ⟨sessionId, title, workspacePath, activeFile, some appId⟩ t0]).length ≤ MAX_ROWS := by
      simp only [List.length_append, List.length_cons, List.length_nil]
      omega
    rw [pruneRows_of_length_le hb]
  have hskip1 : (!false && (initialCoordState.lastLoggedSignature ==
      some (signatureOf appId title)) && decide (t0 - initialCoordState.lastLoggedAt < DEBOUNCE_MS)) = false := by
    simp [initialCoordState]
  unfold logWindowFocus at hcall1
  rw [hskip1] at hcall1
  simp only [Bool.false_eq_true, if_false] at hcall1
  obtain ⟨rfl, rfl, rfl⟩ : b1 = true
      ∧ cs1 = ⟨some (signatureOf appId title), t0⟩
      ∧ st1 = recordFocusEvent ⟨sessionId, title, workspacePath, activeFile, some appId⟩ t0 st0 := by
    have h1 := congrArg Prod.fst hcall1
    have h2 := congrArg (fun p => p.2.1) hcall1
    have h3 := congrArg (fun p => p.2.2) hcall1
    exact ⟨h1.symm, h2.symm, h3.symm⟩
  have hlen1 : (recordFocusEvent ⟨sessionId, title, workspacePath, activeFile, some appId⟩ t0 st0).rows.length =
      st0.rows.length + 1 := by
    rw [hrec1]
    simp
  have hrec2len : ∀ m : Nat,
      (recordFocusEvent ⟨sessionId, title, workspacePath, activeFile, some appId⟩ m
        (recordFocusEvent ⟨sessionId, title, workspacePath, activeFile, some appId⟩ t0 st0)).rows.length =
      st0.rows.length + 2 := by
    intro m
    unfold recordFocusEvent
    rw [if_neg htitle, if_neg htitle]
    have hb1 : (st0.rows ++ [mkRow st0.nextId
        ⟨sessionId, title, workspacePath, activeFile, some appId⟩ t0]).length ≤ MAX_ROWS := by
      simp only [List.length_append, List.length_cons, List.length_nil]
      omega
    rw [pruneRows_of_length_le hb1]
    rw [pruneRows_of_length_le ?hbound]
    case hbound =>
      simp only [List.length_append, List.length_cons, List.length_nil]
      omega
    simp only [List.length_append, List.length_cons, List.length_nil]
  refine ⟨rfl, hlen1, ?_, ?_, ?_⟩
  · intro hlt
    unfold logWindowFocus
    rw [if_pos ?hcond]
    case hcond =>
      simp only [Bool.not_false, Bool.true_and, Bool.and_eq_true, beq_iff_eq,
        Option.some.injEq, decide_eq_true_eq]
      exact ⟨trivial, hlt⟩
  · intro hge
    unfold logWindowFocus
    rw [if_neg ?hcond]
    case hcond =>
      simp only [Bool.not_false, Bool.true_and, Bool.and_eq_true, beq_iff_eq,
        Option.some.injEq, decide_eq_true_eq, not_and]
      intro _
      omega
    exact hrec2len now
  · unfold logWindowFocus
    rw [if_neg (by simp)]
    exact hrec2len now

theorem c5_debounce_witness :
    logWindowFocus false "s" "cursor" "t" none none 1300
        ⟨some (signatureOf "cursor" "t"), 1000⟩
        ⟨[mkRow 1 ⟨"s", "t", none, none, some "cursor"⟩ 1000], 2⟩ =
      (false, ⟨some (signatureOf "cursor" "t"), 1000⟩,
        ⟨[mkRow 1 ⟨"s", "t", none, none, some "cursor"⟩ 1000], 2⟩)
    ∧ (logWindowFocus false "s" "cursor" "t" none none 1600
        ⟨some (signatureOf "cursor" "t"), 1000⟩
        ⟨[mkRow 1 ⟨"s", "t", none, none, some "cursor"⟩ 1000], 2⟩).2.2.rows.length = 2
    ∧ (logWindowFocus true "s" "cursor" "t" none none 1300
        ⟨some (signatureOf "cursor" "t"), 1000⟩
        ⟨[mkRow 1 ⟨"s", "t", none, none, some "cursor"⟩ 1000], 2⟩).2.2.rows.length = 2 := by
  have h13 := c5_debounce "s" "cursor" "t" none none 1000 1300 emptyStore (by decide) (by decide)
    true ⟨some (signatureOf "cursor" "t"), 1000⟩
    ⟨[mkRow 1 ⟨"s", "t", none, none, some "cursor"⟩ 1000], 2⟩ (by decide)
  have h16 := c5_debounce "s" "cursor" "t" none none 1000 1600 emptyStore (by decide) (by decide)
    true ⟨some (signatureOf "cursor" "t"), 1000⟩
    ⟨[mkRow 1 ⟨"s", "t", none, none, some "cursor"⟩ 1000], 2⟩ (by decide)
  exact ⟨h13.2.2.1 (by decide), h16.2.2.2.1 (by decide), h13.2.2.2.2⟩

/-! ## The window focuser (macos.ts, focusCursorWindow) -/

/-- Outcome reported by the engine for one SQL statement. -/
inductive SqlOutcome where
  | ok
  | err (message : String)
  deriving DecidableEq

/-- The `/duplicate column name/i` regex test: the lowercase pattern
occurs in the lowercased message. -/
def isDuplicateColumnError (message : String) : Bool :=
  containsSeq "duplicate column name".data (message.data.map Char.toLower)

/-- Embedding of `ensureColumnExists`: run the ALTER TABLE; a
duplicate-column error is swallowed (success), any other error is
re-raised. -/
def ensureColumnExists (alterResult : SqlOutcome) : Except String Unit :=
  match alterResult with
  | .ok => .ok ()
  | .err m => if isDuplicateColumnError m then .ok () else .error m

/-- C7: the column-adding migration succeeds when the ALTER succeeds or
when the engine reports a duplicate-column error (in any letter case, as
SQLite's "duplicate column name: app_id" is), and re-raises every other
error; so initializing a store that already has the column does not
fail. -/
theorem c7_duplicate_column_tolerated (m : String) :
    ensureColumnExists .ok = .ok ()
    ∧ (isDuplicateColumnError m = true → ensureColumnExists (.err m) = .ok ())
    ∧ (isDuplicateColumnError m = false → ensureColumnExists (.err m) = .error m)
    ∧ ensureColumnExists (.err "duplicate column name: app_id") = .ok ()
    ∧ ensureColumnExists (.err "Duplicate Column Name: app_id") = .ok ()
    ∧ ensureColumnExists (.err "no such table: window_focus") =
        .error "no such table: window_focus" := by
  have hm : ensureColumnExists (.err m) =
      (if isDuplicateColumnError m = true then Except.ok () else Except.error m) := rfl
  refine ⟨rfl, ?_, ?_, rfl, rfl, rfl⟩
  · intro h
    rw [hm, if_pos h]
  · intro h
    rw [hm, if_neg (by simp [h])]

theorem c7_duplicate_column_tolerated_witness :
    ensureColumnExists (.err "duplicate column name: app_id") = .ok ()
    ∧ ensureColumnExists (.err "disk I/O error") = .error "disk I/O error" :=
  ⟨(c7_duplicate_column_tolerated "duplicate column name: app_id").2.1 (by decide),
   (c7_duplicate_column_tolerated "disk I/O error").2.2.1 (by decide)⟩

/-! ## SQL string escaping (sqlValue) -/

/-- Per-character model of `value.replace(/'/g, "''")`. -/
def escapeQuotes : List Char → List Char
  | [] => []
  | c :: cs =>
    if c = quoteChar then quoteChar :: quoteChar :: escapeQuotes cs
    else c :: escapeQuotes cs

/-- Embedding of `sqlValue`: `NULL` for null/undefined, otherwise a SQL
string literal: a quote, the value with every quote doubled, a quote. -/
def sqlValue : Option String → String
  | none => "NULL"
  | some v => String.mk (quoteChar :: (escapeQuotes v.data ++ [quoteChar]))

/-- The SQL lexer's reading of a string literal body (after the opening
quote): `''` denotes one quote, a lone quote closes the literal; returns
the denoted characters and the input left after the closing quote. -/
def sqlLexString : List Char → Option (List Char × List Char)
  | [] => none
  | c :: cs =>
    if c = quoteChar then
      match cs with
      | [] => some ([], [])
      | c2 :: cs2 =>
        if c2 = quoteChar then
          (sqlLexString cs2).map fun p => (quoteChar :: p.1, p.2)
        else some ([], cs)
    else (sqlLexString cs).map fun p => (c :: p.1, p.2)

/-- The string a full SQL string literal denotes, if it is one literal
and nothing else. -/
def decodeSqlLiteralChars : List Char → Option String
  | [] => none
  | c :: rest =>
    if c = quoteChar then
      match sqlLexString rest with
      | some (content, []) => some (String.mk content)
      | _ => none
    else none

/-- String-level wrapper for `decodeSqlLiteralChars`. -/
def decodeSqlLiteral (lit : String) : Option String :=
  decodeSqlLiteralChars lit.data

lemma sqlLexString_cons_ne (c : Char) (hc : ¬ c = quoteChar) (rest : List Char) :
    sqlLexString (c :: rest) = (sqlLexString rest).map fun p => (c :: p.1, p.2) := by
  cases rest with
  | nil =>
    show (if c = quoteChar then some ([], [])
        else Option.map (fun p => (c :: p.1, p.2)) (sqlLexString [])) = _
    rw [if_neg hc]
  | cons c2 cs2 =>
    show (if c = quoteChar then
        (if c2 = quoteChar then (sqlLexString cs2).map fun p => (quoteChar :: p.1, p.2)
         else some ([], c2 :: cs2))
      else Option.map (fun p => (c :: p.1, p.2)) (sqlLexString (c2 :: cs2))) = _
    rw [if_neg hc]

lemma sqlLexString_escape : ∀ cs : List Char,
    sqlLexString (escapeQuotes cs ++ [quoteChar]) = some (cs, []) := by
  intro cs
  induction cs with
  | nil =>
    simp [escapeQuotes, sqlLexString]
  | cons c cs ih =>
    by_cases hc : c = quoteChar
    · subst hc
      show Option.map (fun p => (quoteChar :: p.1, p.2))
          (sqlLexString (escapeQuotes cs ++ [quoteChar])) = some (quoteChar :: cs, [])
      rw [ih]
      rfl
    · have he : escapeQuotes (c :: cs) ++ [quoteChar] =
          c :: (escapeQuotes cs ++ [quoteChar]) := by
        show (if c = quoteChar then quoteChar :: quoteChar :: escapeQuotes cs
            else c :: escapeQuotes cs) ++ [quoteChar] = _
        rw [if_neg hc, List.cons_append]
      rw [he, sqlLexString_cons_ne c hc _, ih]
      rfl

/-- C8: the SQL literal `sqlValue` builds (each single quote doubled)
denotes exactly the original string — so for any input, quotes included,
the row is written with the exact field values, and rows returned by
`getLastNonDotWindow` come from the store unchanged. -/
theorem c8_sql_escape_roundtrip :
    (∀ s : String, decodeSqlLiteral (sqlValue (some s)) = some s)
    ∧ sqlValue none = "NULL"
    ∧ (∀ (e : FocusEntry) (ts : Nat) (st : Store),
        jsTrim e.windowTitle ≠ "" → st.rows.length < MAX_ROWS →
        (recordFocusEvent e ts st).rows = st.rows ++ [mkRow st.nextId e ts]
        ∧ (mkRow st.nextId e ts).sessionId = e.sessionId
        ∧ (mkRow st.nextId e ts).windowTitle = some e.windowTitle
        ∧ (mkRow st.nextId e ts).workspacePath = e.workspacePath
        ∧ (mkRow st.nextId e ts).activeFile = e.activeFile
        ∧ (mkRow st.nextId e ts).appId = e.appId)
    ∧ (∀ (ex : String) (app : Option String) (st : Store) (r : FocusRow),
        getLastNonDotWindow ex app st = some r → r ∈ st.rows) := by
  refine ⟨?_, rfl, ?_, ?_⟩
  · intro s
    have h1 : decodeSqlLiteral (sqlValue (some s)) =
        decodeSqlLiteralChars (quoteChar :: (escapeQuotes s.data ++ [quoteChar])) := rfl
    have h2 : decodeSqlLiteralChars (quoteChar :: (escapeQuotes s.data ++ [quoteChar])) =
        (match sqlLexString (escapeQuotes s.data ++ [quoteChar]) with
         | some (content, []) => some (String.mk content)
         | _ => none) := rfl
    rw [h1, h2, sqlLexString_escape s.data]
  · intro e ts st htitle hroom
    refine ⟨?_, rfl, rfl, rfl, rfl, rfl⟩
    unfold recordFocusEvent
    rw [if_neg htitle]
    have hb : (st.rows ++ [mkRow st.nextId e ts]).length ≤ MAX_ROWS := by
      simp only [List.length_append, List.length_cons, List.length_nil]
      omega
    rw [pruneRows_of_length_le hb]
  · intro ex app st r hr
    unfold getLastNonDotWindow at hr
    cases hmx : maxRow (st.rows.filter (rowQualifiesB ex app)) with
    | none =>
      rw [hmx] at hr
      cases hr
    | some m =>
      rw [hmx] at hr
      cases hwt : m.windowTitle with
      | none =>
        simp only [hwt] at hr
        exact Option.noConfusion hr
      | some t =>
        simp only [hwt] at hr
        by_cases ht : t = ""
        · rw [if_pos ht] at hr
          cases hr
        · rw [if_neg ht] at hr
          obtain rfl : m = r := Option.some.inj hr
          exact (List.mem_filter.mp (maxRow_mem hmx)).1

/-- Sample string containing a single quote, built without a quote
character in the source text. -/
def quotedSample : String := String.mk ['O', quoteChar, 'B', 'r', 'i', 'e', 'n']

theorem c8_sql_escape_roundtrip_witness :
    decodeSqlLiteral (sqlValue (some quotedSample)) = some quotedSample
    ∧ (recordFocusEvent ⟨quotedSample, quotedSample, some quotedSample, some quotedSample,
          some quotedSample⟩ 7 emptyStore).rows =
        [mkRow 1 ⟨quotedSample, quotedSample, some quotedSample, some quotedSample,
          some quotedSample⟩ 7] := by
  constructor
  · exact (c8_sql_escape_roundtrip).1 quotedSample
  · have h := ((c8_sql_escape_roundtrip).2.2.1 ⟨quotedSample, quotedSample, some quotedSample,
      some quotedSample, some quotedSample⟩ 7 emptyStore (by decide) (by decide)).1
    rw [h]
    rfl

/-! ## The last-window marker (last-window.ts) -/

/-- The characters `\\ / : * ? " < > |` of `INVALID_FILENAME_CHARS`. -/
def INVALID_FILENAME_CHARS : List Char :=
  [Char.ofNat 92, '/', ':', '*', '?', Char.ofNat 34, '<', '>', '|']

/-- Embedding of `sanitizeWindowName`: replace every invalid filename
character by an underscore, trim, and fall back to "window" when the
result is empty. -/
def sanitizeWindowName (windowName : String) : String :=
  let replaced :=
    jsTrim (String.mk (windowName.data.map fun c =>
      if c ∈ INVALID_FILENAME_CHARS then '_' else c))
  if replaced.length ≠ 0 then replaced else "window"

/-- The marker directory: file names paired with contents. -/
abbrev DirState := List (String × String)

/-- `unlink` of one file name. -/
def removeFileEntry (dir : DirState) (name : String) : DirState :=
  dir.filter fun e => e.1 != name

/-- `writeFile` with overwrite semantics. -/
def writeFileEntry (dir : DirState) (name content : String) : DirState :=
  removeFileEntry dir name ++ [(name, content)]

/-- Embedding of `writeLastWindowMarker` with every filesystem operation
succeeding: a no-op when the label trims to empty; otherwise read the
directory, unlink every listed entry, and write one file named by the
sanitized trimmed label whose content is the trimmed label. -/
def writeLastWindowMarker (windowLabel : String) (dir : DirState) : DirState :=
  if jsTrim windowLabel = "" then dir
  else
    writeFileEntry ((dir.map Prod.fst).foldl removeFileEntry dir)
      (sanitizeWindowName (jsTrim windowLabel)) (jsTrim windowLabel)

lemma foldl_removeFileEntry_all : ∀ (names : List String) (d : DirState),
    (∀ e ∈ d, e.1 ∈ names) → names.foldl removeFileEntry d = [] := by
  intro names
  induction names with
  | nil =>
    intro d hd
    cases d with
    | nil => rfl
    | cons e d' => exact absurd (hd e (List.mem_cons_self _ _)) (List.not_mem_nil _)
  | cons n ns ih =>
    intro d hd
    rw [List.foldl_cons]
    apply ih
    intro e he
    obtain ⟨hmem, hne⟩ := List.mem_filter.mp he
    rcases List.mem_cons.mp (hd e hmem) with h | h
    · exact absurd h (by simpa using hne)
    · exact h

/-- C10: a call whose label is non-empty after trimming leaves the marker
directory holding exactly one file, named by the trimmed label with each
of `\\ / : * ? " < > |` replaced by an underscore ("window" if that ever
trimmed to empty) and whose content is the trimmed label; a call whose
label trims to empty writes nothing and leaves the directory unchanged. -/
theorem c10_marker_single_file (windowLabel : String) (dir : DirState) :
    (jsTrim windowLabel ≠ "" →
      writeLastWindowMarker windowLabel dir =
        [(sanitizeWindowName (jsTrim windowLabel), jsTrim windowLabel)]
      ∧ (writeLastWindowMarker windowLabel dir).length = 1)
    ∧ (jsTrim windowLabel = "" → writeLastWindowMarker windowLabel dir = dir)
    ∧ sanitizeWindowName "a/b:c*d" = "a_b_c_d"
    ∧ sanitizeWindowName "" = "window" := by
  refine ⟨?_, ?_, by decide, by decide⟩
  · intro hne
    have hclear : (dir.map Prod.fst).foldl removeFileEntry dir = [] := by
      apply foldl_removeFileEntry_all
      intro e he
      exact List.mem_map.mpr ⟨e, he, rfl⟩
    have heq : writeLastWindowMarker windowLabel dir =
        [(sanitizeWindowName (jsTrim windowLabel), jsTrim windowLabel)] := by
      unfold writeLastWindowMarker
      rw [if_neg hne, hclear]
      rfl
    exact ⟨heq, by rw [heq]; rfl⟩
  · intro he
    unfold writeLastWindowMarker
    rw [if_pos he]

theorem c10_marker_single_file_witness :
    writeLastWindowMarker "  my repo  " [("old1", "x"), ("old2", "y")] =
      [(sanitizeWindowName "my repo", "my repo")] :=
  ((c10_marker_single_file "  my repo  " [("old1", "x"), ("old2", "y")]).1 (by decide)).1
